import Mathlib

/-!
Formal model of the tcleg Button_Debouncer library, single global-flag C++
variant (button_debounce.h together with button_debounce.cpp, the file holding
`Debouncer::Debouncer`, `Debouncer::ButtonProcess`, `Debouncer::ButtonPressed`,
`Debouncer::ButtonReleased` and `Debouncer::ButtonDebouncedStateGet`).

The machine type `uint8_t` is modelled as `Nat` together with reduction
`% 256` at the points where the C code converts a wider value to `uint8_t`,
and the 8-bit complement `(uint8_t)~x` as `255 ^^^ x`.  The private array
`uint8_t state[MAX_BUTTON_CHECKS]` is modelled as a `List Nat` whose length is
the configured `MAX_BUTTON_CHECKS`; the C loop
`for(i = 0; i < MAX_BUTTON_CHECKS; i++) debouncedState &= state[i];`
over that array is rendered as a left fold over the list entries.
The two configuration macros `MAX_BUTTON_CHECKS` (default 10) and
`USING_BUTTON_PULLUPS` (default true) are passed as explicit parameters
`maxChecks` and `pullups`.
-/

namespace ButtonDebounce

/-- Bitwise complement of an 8-bit value, as the C expression
`(uint8_t)~x` computes it for `x < 256`. -/
def compl8 (x : Nat) : Nat := 255 ^^^ x

/-- Default value of the `MAX_BUTTON_CHECKS` configuration macro
(button_debounce.h). -/
def MAX_BUTTON_CHECKS : Nat := 10

/-- Default value of the `USING_BUTTON_PULLUPS` configuration macro
(button_debounce.h). -/
def USING_BUTTON_PULLUPS : Bool := true

/-- The private data of the `Debouncer` class: the sample history array
`state`, the wrap-around write position `index`, the AND-reduced
`debouncedState` and the edge mask `changed` (all `uint8_t` in the source). -/
structure Debouncer where
  state : List Nat
  index : Nat
  debouncedState : Nat
  changed : Nat
deriving Repr, DecidableEq

namespace Debouncer

/-- The C++ default constructor `Debouncer::Debouncer`: `index = 0`,
`debouncedState = 0xFF`, `changed = 0x00`, and every entry of the state
array set to `0xFF`. -/
def init (maxChecks : Nat) : Debouncer :=
  { state := List.replicate maxChecks 255
    index := 0
    debouncedState := 255
    changed := 0 }

/-- The polarity step at the top of `ButtonProcess`: the `uint8_t` argument
value, complemented when `USING_BUTTON_PULLUPS == false`.  The `% 256`
models the conversion of the argument to `uint8_t`. -/
def normalize (pullups : Bool) (portStatus : Nat) : Nat :=
  if pullups then portStatus % 256 else compl8 (portStatus % 256)

/-- One call of `Debouncer::ButtonProcess(portStatus)`: remember the previous
`debouncedState`, complement the sample when the pull-up flag is false, store
it at `state[index]`, AND-reduce the whole array into `debouncedState`,
advance `index` with wrap at `MAX_BUTTON_CHECKS`, and set `changed` to the
XOR of the new and previous `debouncedState`. -/
def ButtonProcess (pullups : Bool) (maxChecks : Nat) (d : Debouncer)
    (portStatus : Nat) : Debouncer :=
  let lastDebouncedState := d.debouncedState
  let ps := normalize pullups portStatus
  let st := d.state.set d.index ps
  let deb := st.foldl (fun a v => a &&& v) 255
  let idx := if maxChecks ≤ d.index + 1 then 0 else d.index + 1
  { state := st
    index := idx
    debouncedState := deb
    changed := deb ^^^ lastDebouncedState }

/-- `Debouncer::ButtonPressed(GPIOButtonPin)`: true iff
`(changed & ~debouncedState) & GPIOButtonPin` is nonzero. -/
def ButtonPressed (d : Debouncer) (pin : Nat) : Bool :=
  if ((d.changed &&& compl8 d.debouncedState) &&& (pin % 256)) ≠ 0 then true
  else false

/-- `Debouncer::ButtonReleased(GPIOButtonPin)`: true iff
`(changed & debouncedState) & GPIOButtonPin` is nonzero. -/
def ButtonReleased (d : Debouncer) (pin : Nat) : Bool :=
  if ((d.changed &&& d.debouncedState) &&& (pin % 256)) ≠ 0 then true
  else false

/-- `Debouncer::ButtonDebouncedStateGet()`: `debouncedState` unchanged when
`USING_BUTTON_PULLUPS == true`, its 8-bit complement otherwise. -/
def ButtonDebouncedStateGet (pullups : Bool) (d : Debouncer) : Nat :=
  if pullups then d.debouncedState else compl8 d.debouncedState

/-- State-passing rendering of the `ButtonPressed` method call: its body
reads fields only and assigns none, so the receiver comes back unchanged. -/
def ButtonPressedM (d : Debouncer) (pin : Nat) : Bool × Debouncer :=
  (d.ButtonPressed pin, d)

/-- State-passing rendering of the `ButtonReleased` method call: its body
reads fields only and assigns none, so the receiver comes back unchanged. -/
def ButtonReleasedM (d : Debouncer) (pin : Nat) : Bool × Debouncer :=
  (d.ButtonReleased pin, d)

/-- State-passing rendering of the `ButtonDebouncedStateGet` method call:
its body reads fields only and assigns none, so the receiver comes back
unchanged. -/
def ButtonDebouncedStateGetM (pullups : Bool) (d : Debouncer) :
    Nat × Debouncer :=
  (ButtonDebouncedStateGet pullups d, d)

/-- Processing a list of raw samples in order, one `ButtonProcess` call per
element. -/
def run (pullups : Bool) (maxChecks : Nat) (d : Debouncer) (xs : List Nat) :
    Debouncer :=
  xs.foldl (ButtonProcess pullups maxChecks) d

/-- Spec-side composite description of one `ButtonProcess` call, following
the claim wording: complement the sample when the global pull-up flag is
false, store the normalized sample into the history slot at the current write
index, advance the write index modulo N, recompute `debouncedState` as the
bitwise AND of all N history entries, and set `changed` to the XOR of the new
`debouncedState` with the one held immediately before the call. -/
def buttonProcessSpec (pullups : Bool) (maxChecks : Nat) (d : Debouncer)
    (portStatus : Nat) : Debouncer :=
  let normalized :=
    if pullups then portStatus % 256 else compl8 (portStatus % 256)
  let hist := d.state.set d.index normalized
  let newDeb := hist.foldl (fun a v => a &&& v) 255
  { state := hist
    index := (d.index + 1) % maxChecks
    debouncedState := newDeb
    changed := newDeb ^^^ d.debouncedState }

/-- Modelled from the spec: the raw electrical value of the whole 8-bit port
when no pin is pressed.  Per the glossary, a pull-up wired pin reads logic-1
when unpressed and a pull-down wired pin reads logic-0, so the idle port
reads 0xFF under pull-ups and 0x00 under pull-downs. -/
def rawIdlePort (pullups : Bool) : Nat :=
  if pullups then 255 else 0

/-- An alternating raw sample sequence of length m: the sample x on
even-numbered calls (the first, third, ... call) and y on odd-numbered
calls. -/
def altList (x y : Nat) (m : Nat) : List Nat :=
  (List.range m).map (fun t => if t % 2 = 0 then x else y)

/-! Basic bit-level helper lemmas. -/

theorem testBit_255 {b : Nat} (hb : b < 8) : Nat.testBit 255 b = true := by
  have h : (255 : Nat) = 2 ^ 8 - 1 := by norm_num
  rw [h, Nat.testBit_two_pow_sub_one]
  simpa using hb

theorem testBit_compl8 (x : Nat) {b : Nat} (hb : b < 8) :
    (compl8 x).testBit b = !x.testBit b := by
  rw [compl8, Nat.testBit_xor, testBit_255 hb, Bool.true_xor]

theorem testBit_mod256 (x : Nat) {b : Nat} (hb : b < 8) :
    (x % 256).testBit b = x.testBit b := by
  have h : (256 : Nat) = 2 ^ 8 := by norm_num
  rw [h, Nat.testBit_mod_two_pow]
  simp [hb]

theorem testBit_foldl_and (l : List Nat) (a b : Nat) :
    (l.foldl (fun x v => x &&& v) a).testBit b
      = (a.testBit b && l.all (fun v => v.testBit b)) := by
  induction l generalizing a with
  | nil => simp
  | cons v t ih =>
      simp only [List.foldl_cons, List.all_cons, ih, Nat.testBit_and,
        Bool.and_assoc]

theorem and_two_pow_eq_zero_iff (w b : Nat) :
    (w &&& 2 ^ b = 0) ↔ w.testBit b = false := by
  constructor
  · intro h
    have h2 := congrArg (fun z => z.testBit b) h
    simpa [Nat.testBit_and, Nat.testBit_two_pow_self] using h2
  · intro h
    apply Nat.eq_of_testBit_eq
    intro i
    rw [Nat.testBit_and, Nat.testBit_two_pow, Nat.zero_testBit]
    by_cases hbi : b = i
    · subst hbi
      simp [h]
    · simp [hbi]

theorem and_two_pow_ne_zero_iff (w b : Nat) :
    (w &&& 2 ^ b ≠ 0) ↔ w.testBit b = true := by
  rw [Ne, and_two_pow_eq_zero_iff]
  cases h : w.testBit b <;> simp

theorem two_pow_mod256 {b : Nat} (hb : b < 8) : (2 : Nat) ^ b % 256 = 2 ^ b := by
  apply Nat.mod_eq_of_lt
  calc (2 : Nat) ^ b ≤ 2 ^ 7 := Nat.pow_le_pow_right (by norm_num) (by omega)
  _ < 256 := by norm_num

/-! Single-pin characterizations of the two edge accessors. -/

theorem ButtonPressed_two_pow (d : Debouncer) {b : Nat} (hb : b < 8) :
    d.ButtonPressed (2 ^ b)
      = (d.changed.testBit b && !d.debouncedState.testBit b) := by
  unfold ButtonPressed
  rw [two_pow_mod256 hb]
  by_cases h : (d.changed &&& compl8 d.debouncedState).testBit b = true
  · rw [if_pos ((and_two_pow_ne_zero_iff _ b).mpr h)]
    rw [Nat.testBit_and, testBit_compl8 _ hb] at h
    exact h.symm
  · have h0 : (d.changed &&& compl8 d.debouncedState) &&& 2 ^ b = 0 :=
      (and_two_pow_eq_zero_iff _ b).mpr (by
        cases h2 : (d.changed &&& compl8 d.debouncedState).testBit b
        · rfl
        · exact absurd h2 h)
    rw [if_neg (by simp [h0])]
    have h3 : (d.changed &&& compl8 d.debouncedState).testBit b = false := by
      cases h2 : (d.changed &&& compl8 d.debouncedState).testBit b
      · rfl
      · exact absurd h2 h
    rw [Nat.testBit_and, testBit_compl8 _ hb] at h3
    exact h3.symm

theorem ButtonReleased_two_pow (d : Debouncer) {b : Nat} (hb : b < 8) :
    d.ButtonReleased (2 ^ b)
      = (d.changed.testBit b && d.debouncedState.testBit b) := by
  unfold ButtonReleased
  rw [two_pow_mod256 hb]
  by_cases h : (d.changed &&& d.debouncedState).testBit b = true
  · rw [if_pos ((and_two_pow_ne_zero_iff _ b).mpr h)]
    rw [Nat.testBit_and] at h
    exact h.symm
  · have h0 : (d.changed &&& d.debouncedState) &&& 2 ^ b = 0 :=
      (and_two_pow_eq_zero_iff _ b).mpr (by
        cases h2 : (d.changed &&& d.debouncedState).testBit b
        · rfl
        · exact absurd h2 h)
    rw [if_neg (by simp [h0])]
    have h3 : (d.changed &&& d.debouncedState).testBit b = false := by
      cases h2 : (d.changed &&& d.debouncedState).testBit b
      · rfl
      · exact absurd h2 h
    rw [Nat.testBit_and] at h3
    exact h3.symm

/-! Shape lemmas about one ButtonProcess step and about runs. -/

theorem ButtonProcess_state (p : Bool) (N : Nat) (d : Debouncer) (x : Nat) :
    (ButtonProcess p N d x).state = d.state.set d.index (normalize p x) := rfl

theorem ButtonProcess_index_def (p : Bool) (N : Nat) (d : Debouncer) (x : Nat) :
    (ButtonProcess p N d x).index
      = if N ≤ d.index + 1 then 0 else d.index + 1 := rfl

theorem ButtonProcess_debouncedState (p : Bool) (N : Nat) (d : Debouncer)
    (x : Nat) :
    (ButtonProcess p N d x).debouncedState
      = (d.state.set d.index (normalize p x)).foldl (fun a v => a &&& v) 255 :=
  rfl

theorem ButtonProcess_changed (p : Bool) (N : Nat) (d : Debouncer) (x : Nat) :
    (ButtonProcess p N d x).changed
      = (ButtonProcess p N d x).debouncedState ^^^ d.debouncedState := rfl

theorem ButtonProcess_length (p : Bool) (N : Nat) (d : Debouncer) (x : Nat) :
    (ButtonProcess p N d x).state.length = d.state.length := by
  rw [ButtonProcess_state, List.length_set]

theorem ButtonProcess_index_lt (p : Bool) {N : Nat} (hN : 0 < N)
    (d : Debouncer) (x : Nat) : (ButtonProcess p N d x).index < N := by
  rw [ButtonProcess_index_def]
  split
  · exact hN
  · omega

theorem succ_wrap_eq_mod {N k : Nat} (hk : k < N) :
    (if N ≤ k + 1 then 0 else k + 1) = (k + 1) % N := by
  by_cases h : N ≤ k + 1
  · have he : k + 1 = N := by omega
    rw [if_pos h, he, Nat.mod_self]
  · rw [if_neg h, Nat.mod_eq_of_lt (by omega)]

theorem ButtonProcess_index_mod (p : Bool) {N : Nat}
    (d : Debouncer) (x : Nat) (hd : d.index < N) :
    (ButtonProcess p N d x).index = (d.index + 1) % N := by
  rw [ButtonProcess_index_def]
  exact succ_wrap_eq_mod hd

theorem run_nil (p : Bool) (N : Nat) (d : Debouncer) : run p N d [] = d := rfl

theorem run_cons (p : Bool) (N : Nat) (d : Debouncer) (x : Nat)
    (t : List Nat) : run p N d (x :: t) = run p N (ButtonProcess p N d x) t :=
  rfl

theorem run_append (p : Bool) (N : Nat) (d : Debouncer) (xs ys : List Nat) :
    run p N d (xs ++ ys) = run p N (run p N d xs) ys := by
  simp [run, List.foldl_append]

theorem run_length (p : Bool) (N : Nat) (xs : List Nat) :
    ∀ d : Debouncer, (run p N d xs).state.length = d.state.length := by
  induction xs with
  | nil => intro d; rfl
  | cons x t ih =>
      intro d
      rw [run_cons, ih, ButtonProcess_length]

theorem run_index_lt (p : Bool) {N : Nat} (hN : 0 < N) (xs : List Nat) :
    ∀ d : Debouncer, d.index < N → (run p N d xs).index < N := by
  induction xs with
  | nil => intro d hd; exact hd
  | cons x t ih =>
      intro d hd
      rw [run_cons]
      exact ih _ (ButtonProcess_index_lt p hN d x)

theorem run_index_mod (p : Bool) {N : Nat} (hN : 0 < N) (xs : List Nat) :
    ∀ d : Debouncer, d.index < N →
      (run p N d xs).index = (d.index + xs.length) % N := by
  induction xs with
  | nil =>
      intro d hd
      rw [run_nil, List.length_nil, Nat.add_zero, Nat.mod_eq_of_lt hd]
  | cons x t ih =>
      intro d hd
      rw [run_cons, ih _ (ButtonProcess_index_lt p hN d x),
        ButtonProcess_index_mod p d x hd, Nat.mod_add_mod,
        List.length_cons]
      congr 1
      omega

/-! Window-slot lemmas. -/

theorem ButtonProcess_slot_written (p : Bool) (N : Nat) (d : Debouncer)
    (x : Nat) (hd : d.index < d.state.length) :
    (ButtonProcess p N d x).state[d.index]? = some (normalize p x) := by
  rw [ButtonProcess_state]
  exact List.getElem?_set_self hd

theorem ButtonProcess_slot_other (p : Bool) (N : Nat) (d : Debouncer)
    (x : Nat) {j : Nat} (hj : d.index ≠ j) :
    (ButtonProcess p N d x).state[j]? = d.state[j]? := by
  rw [ButtonProcess_state]
  exact List.getElem?_set_ne hj

theorem ButtonProcess_deb_testBit (p : Bool) (N : Nat) (d : Debouncer)
    (x b : Nat) :
    (ButtonProcess p N d x).debouncedState.testBit b
      = (Nat.testBit 255 b
          && (ButtonProcess p N d x).state.all (fun v => v.testBit b)) := by
  rw [ButtonProcess_debouncedState, testBit_foldl_and, ButtonProcess_state]

theorem ButtonProcess_changed_testBit (p : Bool) (N : Nat) (d : Debouncer)
    (x b : Nat) :
    (ButtonProcess p N d x).changed.testBit b
      = (((ButtonProcess p N d x).debouncedState.testBit b).xor
          (d.debouncedState.testBit b)) := by
  rw [ButtonProcess_changed, Nat.testBit_xor]

theorem all_testBit_false_of_mem {l : List Nat} {v b : Nat} (hv : v ∈ l)
    (hfb : v.testBit b = false) : l.all (fun w => w.testBit b) = false := by
  cases h : l.all (fun w => w.testBit b)
  · rfl
  · exact absurd (List.all_eq_true.mp h v hv) (by simp [hfb])

/-- After a ButtonProcess call whose normalized sample has bit b clear, the
recomputed AND reduction has bit b clear: the freshly written entry is in the
window. -/
theorem ButtonProcess_assert_debBit (p : Bool) (N : Nat) (d : Debouncer)
    (x : Nat) {b : Nat} (hd : d.index < d.state.length)
    (hx : (normalize p x).testBit b = false) :
    (ButtonProcess p N d x).debouncedState.testBit b = false := by
  rw [ButtonProcess_deb_testBit]
  have hmem : normalize p x ∈ (ButtonProcess p N d x).state := by
    rw [ButtonProcess_state]
    exact List.mem_set d.state d.index hd (normalize p x)
  rw [all_testBit_false_of_mem hmem hx, Bool.and_false]

/-- Writing a sample whose bit b is set into a window whose entries all have
bit b set keeps every entry's bit b set. -/
theorem ButtonProcess_keep_all (p : Bool) (N : Nat) (d : Debouncer) (x : Nat)
    {b : Nat} (hall : d.state.all (fun v => v.testBit b) = true)
    (hx : (normalize p x).testBit b = true) :
    (ButtonProcess p N d x).state.all (fun v => v.testBit b) = true := by
  rw [ButtonProcess_state, List.all_eq_true]
  intro v hv
  rcases List.mem_or_eq_of_mem_set hv with h | h
  · exact List.all_eq_true.mp hall v h
  · rw [h]
    exact hx

/-- Slot s of the window survives a run none of whose writes land on s. -/
theorem run_slot_preserved (p : Bool) {N : Nat} (ys : List Nat) :
    ∀ (d : Debouncer) (s : Nat), d.state.length = N → d.index < N →
      (∀ t, t < ys.length → (d.index + t) % N ≠ s) →
      (run p N d ys).state[s]? = d.state[s]? := by
  induction ys with
  | nil => intro d s _ _ _; rfl
  | cons z t ih =>
      intro d s hlen hidx hmiss
      have hN : 0 < N := Nat.lt_of_le_of_lt (Nat.zero_le _) hidx
      have hne : d.index ≠ s := by
        have h0 := hmiss 0 (by simp)
        rwa [Nat.add_zero, Nat.mod_eq_of_lt hidx] at h0
      rw [run_cons, ih _ s (by rw [ButtonProcess_length]; exact hlen)
        (ButtonProcess_index_lt p hN d z) ?_,
        ButtonProcess_slot_other p N d z hne]
      intro u hu
      rw [ButtonProcess_index_mod p d z hidx, Nat.mod_add_mod]
      have he : d.index + 1 + u = d.index + (u + 1) := by omega
      rw [he]
      exact hmiss (u + 1) (by simpa using Nat.succ_lt_succ hu)

/-- Every residue is hit by N consecutive cyclic writes: there is a step
t < N with (k + t) % N = s. -/
theorem mod_coverage {N : Nat} (hN : 0 < N) (k : Nat) {s : Nat} (hs : s < N) :
    ∃ t, t < N ∧ (k + t) % N = s := by
  refine ⟨(s + N - k % N) % N, Nat.mod_lt _ hN, ?_⟩
  rw [Nat.add_mod_mod]
  nth_rewrite 1 [← Nat.div_add_mod k N]
  have hk : k % N < N := Nat.mod_lt _ hN
  have hle : k % N ≤ s + N := by omega
  have he : N * (k / N) + k % N + (s + N - k % N) = N * (k / N) + (s + N) := by
    rw [Nat.add_assoc]
    congr 1
    omega
  rw [he, Nat.mul_add_mod, Nat.add_mod_right]
  exact Nat.mod_eq_of_lt hs

/-- If every element of ys normalizes with bit b set, then after running ys
any slot that was already set at bit b, or that gets written during the run,
ends with bit b set. -/
theorem run_cover (p : Bool) {N : Nat} {b : Nat} (ys : List Nat) :
    ∀ (d : Debouncer) (s : Nat), d.state.length = N → d.index < N → s < N →
      (∀ z ∈ ys, (normalize p z).testBit b = true) →
      ((∃ v, d.state[s]? = some v ∧ v.testBit b = true) ∨
        (∃ t, t < ys.length ∧ (d.index + t) % N = s)) →
      ∃ v, (run p N d ys).state[s]? = some v ∧ v.testBit b = true := by
  induction ys with
  | nil =>
      intro d s _ _ _ _ h
      rcases h with h | ⟨t, ht, _⟩
      · exact h
      · exact absurd ht (by simp)
  | cons z t ih =>
      intro d s hlen hidx hs hys h
      have hN : 0 < N := Nat.lt_of_le_of_lt (Nat.zero_le _) hidx
      have hzb : (normalize p z).testBit b = true := hys z (by simp)
      rw [run_cons]
      have hlen2 : (ButtonProcess p N d z).state.length = N := by
        rw [ButtonProcess_length]; exact hlen
      have hidx2 : (ButtonProcess p N d z).index < N :=
        ButtonProcess_index_lt p hN d z
      have hys2 : ∀ w ∈ t, (normalize p w).testBit b = true := by
        intro w hw
        exact hys w (by simp [hw])
      by_cases hsi : d.index = s
      · refine ih _ s hlen2 hidx2 hs hys2 (Or.inl ⟨normalize p z, ?_, hzb⟩)
        rw [← hsi]
        exact ButtonProcess_slot_written p N d z (by rw [hlen]; exact hidx)
      · rcases h with ⟨v, hv, hvb⟩ | ⟨u, hu, hue⟩
        · refine ih _ s hlen2 hidx2 hs hys2 (Or.inl ⟨v, ?_, hvb⟩)
          rw [ButtonProcess_slot_other p N d z hsi]
          exact hv
        · cases u with
          | zero =>
              rw [Nat.add_zero, Nat.mod_eq_of_lt hidx] at hue
              exact absurd hue hsi
          | succ u1 =>
              refine ih _ s hlen2 hidx2 hs hys2 (Or.inr ⟨u1, ?_, ?_⟩)
              · simpa using Nat.lt_of_succ_lt_succ hu
              · rw [ButtonProcess_index_mod p d z hidx, Nat.mod_add_mod]
                have he : d.index + 1 + u1 = d.index + (u1 + 1) := by omega
                rw [he]
                exact hue

theorem run_singleton (p : Bool) (N : Nat) (d : Debouncer) (x : Nat) :
    run p N d [x] = ButtonProcess p N d x := rfl

theorem init_length (maxChecks : Nat) :
    (init maxChecks).state.length = maxChecks := by
  simp [init]

theorem init_index (maxChecks : Nat) : (init maxChecks).index = 0 := rfl

theorem init_debouncedState (maxChecks : Nat) :
    (init maxChecks).debouncedState = 255 := rfl

/-- After at least one call, the current `debouncedState` bit is the AND of
bit b over the final window (the reduction of the last call ran over exactly
the final array contents). -/
theorem run_deb_testBit_all (p : Bool) (N : Nat) (d : Debouncer)
    (ys : List Nat) (hys : ys ≠ []) (b : Nat) :
    (run p N d ys).debouncedState.testBit b
      = (Nat.testBit 255 b
          && (run p N d ys).state.all (fun v => v.testBit b)) := by
  rcases List.eq_nil_or_concat ys with h | ⟨L, z, h⟩
  · exact absurd h hys
  · subst h
    rw [List.concat_eq_append, run_append, run_singleton,
      ButtonProcess_deb_testBit]

/-- A window whose entries all have bit b set keeps that property along a
run whose samples all normalize with bit b set. -/
theorem run_keep_all (p : Bool) (N : Nat) {b : Nat} (ys : List Nat) :
    ∀ d : Debouncer, d.state.all (fun v => v.testBit b) = true →
      (∀ z ∈ ys, (normalize p z).testBit b = true) →
      (run p N d ys).state.all (fun v => v.testBit b) = true := by
  induction ys with
  | nil => intro d h _; exact h
  | cons z t ih =>
      intro d h hz
      rw [run_cons]
      exact ih _ (ButtonProcess_keep_all p N d z h (hz z (by simp)))
        (fun w hw => hz w (by simp [hw]))

theorem replicate_ne_nil_of_pos {j : Nat} (y : Nat) (hj : 0 < j) :
    List.replicate j y ≠ [] := by
  obtain ⟨j1, rfl⟩ : ∃ j1, j = j1 + 1 := ⟨j - 1, by omega⟩
  rw [List.replicate_succ]
  exact List.cons_ne_nil _ _

theorem altList_length (x y m : Nat) : (altList x y m).length = m := by
  simp [altList]

theorem altList_head (x y m : Nat) (hm : 1 ≤ m) :
    altList x y m
      = x :: (List.range (m - 1)).map
          (fun u => if (u + 1) % 2 = 0 then x else y) := by
  obtain ⟨m1, rfl⟩ : ∃ m1, m = m1 + 1 := ⟨m - 1, by omega⟩
  simp only [altList, List.range_succ_eq_map, List.map_cons, List.map_map,
    Nat.add_sub_cancel]
  rfl

/-! Claim theorems. -/

/-- Claim C1: one `ButtonProcess(portStatus)` call complements the sample
when the global pull-up flag is false, stores the normalized sample into the
history slot at the current write index, advances the write index modulo N,
recomputes `debouncedState` as the bitwise AND of all N history entries, and
sets `changed` to the XOR of the new `debouncedState` with the
`debouncedState` held immediately before the call. -/
theorem claim1_buttonProcess_steps (pullups : Bool) (maxChecks : Nat)
    (d : Debouncer) (x : Nat) (h : d.index < maxChecks) :
    ButtonProcess pullups maxChecks d x
      = buttonProcessSpec pullups maxChecks d x := by
  have hidx : (if maxChecks ≤ d.index + 1 then 0 else d.index + 1)
      = (d.index + 1) % maxChecks := succ_wrap_eq_mod h
  simp only [ButtonProcess, buttonProcessSpec, normalize, hidx]

theorem claim1_witness :
    (init 10).index < 10 ∧
      ButtonProcess true 10 (init 10) 5 = buttonProcessSpec true 10 (init 10) 5 :=
  ⟨by decide, claim1_buttonProcess_steps true 10 (init 10) 5 (by decide)⟩

/-- Claim C5 counterexample: with `USING_BUTTON_PULLUPS` true,
`ButtonDebouncedStateGet` on the freshly constructed state returns
`debouncedState` unchanged (0xFF), not its bitwise complement (0x00) as the
claim states. -/
theorem claim5_counterexample :
    ButtonDebouncedStateGet true (init 10)
      ≠ compl8 ((init 10).debouncedState) := by
  decide

/-- Claim C5 (amended): `ButtonDebouncedStateGet` returns `debouncedState`
unchanged when `USING_BUTTON_PULLUPS` is true and returns its full 8-bit
complement when the flag is false; in both cases the returned mask expresses
the debounced state in the raw electrical sense of the port, where a returned
bit equals the raw pressed level (0 under pull-ups, 1 under pull-downs) iff
that pin is debounced-pressed (internal bit 0). -/
theorem claim5_amended (pullups : Bool) (d : Debouncer) (b : Nat)
    (hb : b < 8) :
    ButtonDebouncedStateGet true d = d.debouncedState ∧
    ButtonDebouncedStateGet false d = compl8 d.debouncedState ∧
    ((ButtonDebouncedStateGet pullups d).testBit b = !pullups
      ↔ d.debouncedState.testBit b = false) := by
  refine ⟨rfl, rfl, ?_⟩
  cases pullups
  · simp [ButtonDebouncedStateGet, testBit_compl8 _ hb]
  · simp [ButtonDebouncedStateGet]

theorem claim5_witness :
    (0:Nat) < 8 ∧
      ((ButtonDebouncedStateGet false (init 10)).testBit 0 = !false
        ↔ (init 10).debouncedState.testBit 0 = false) :=
  ⟨by decide, (claim5_amended false (init 10) 0 (by decide)).2.2⟩

/-- Claim C6: immediately after construction, `ButtonDebouncedStateGet`
returns the idle port value under which every pin reads not-pressed in the
raw electrical sense, and `ButtonPressed` and `ButtonReleased` return false
for every mask. -/
theorem claim6_initial_idle (pullups : Bool) (maxChecks : Nat) :
    ButtonDebouncedStateGet pullups (init maxChecks) = rawIdlePort pullups ∧
    (∀ pin : Nat, (init maxChecks).ButtonPressed pin = false) ∧
    (∀ pin : Nat, (init maxChecks).ButtonReleased pin = false) := by
  refine ⟨?_, ?_, ?_⟩
  · cases pullups <;>
      simp [ButtonDebouncedStateGet, init, rawIdlePort, compl8]
  · intro pin
    simp [ButtonPressed, init]
  · intro pin
    simp [ButtonReleased, init]

/-- Claim C8: the three accessors mutate no field of the Debouncer, so
calling any accessor twice, or in any order, without an intervening
`ButtonProcess` yields the same answers. -/
theorem claim8_accessors_pure (pullups : Bool) (d : Debouncer) (p q : Nat) :
    (d.ButtonPressedM p).2 = d ∧
    (d.ButtonReleasedM p).2 = d ∧
    (ButtonDebouncedStateGetM pullups d).2 = d ∧
    ((d.ButtonPressedM p).2.ButtonPressedM p).1 = (d.ButtonPressedM p).1 ∧
    ((d.ButtonReleasedM q).2.ButtonPressedM p).1 = (d.ButtonPressedM p).1 ∧
    ((d.ButtonPressedM q).2.ButtonReleasedM p).1 = (d.ButtonReleasedM p).1 ∧
    ((d.ButtonReleasedM p).2.ButtonReleasedM p).1 = (d.ButtonReleasedM p).1 ∧
    (ButtonDebouncedStateGetM pullups (d.ButtonPressedM p).2).1
      = (ButtonDebouncedStateGetM pullups d).1 :=
  ⟨rfl, rfl, rfl, rfl, rfl, rfl, rfl, rfl⟩

/-- Claim C9: the write-position invariant `index < MAX_BUTTON_CHECKS` holds
after construction and is preserved by every `ButtonProcess` call, the state
array always has exactly `MAX_BUTTON_CHECKS` entries, and the array write
`state[index]` is within bounds. -/
theorem claim9_index_invariant (pullups : Bool) (N : Nat) (hN : 0 < N) :
    ((init N).state.length = N ∧ (init N).index < N) ∧
    (∀ (d : Debouncer) (x : Nat), d.state.length = N → d.index < N →
      ((ButtonProcess pullups N d x).state.length = N ∧
        (ButtonProcess pullups N d x).index < N ∧
        d.index < d.state.length)) := by
  refine ⟨⟨init_length N, ?_⟩, ?_⟩
  · rw [init_index]
    exact hN
  · intro d x hlen hidx
    refine ⟨?_, ButtonProcess_index_lt pullups hN d x, ?_⟩
    · rw [ButtonProcess_length]
      exact hlen
    · rw [hlen]
      exact hidx

theorem claim9_witness :
    (0:Nat) < 10 ∧ ((init 10).state.length = 10 ∧ (init 10).index < 10) :=
  ⟨by decide, (claim9_index_invariant true 10 (by decide)).1⟩

/-- Claim C10: `ButtonPressed` and `ButtonReleased` are mutually exclusive
per pin: the internal masks `changed AND NOT debouncedState` and
`changed AND debouncedState` are bitwise disjoint, and for a single-pin mask
the two accessors never both return true. -/
theorem claim10_pressed_released_exclusive (d : Debouncer) (b : Nat)
    (hb : b < 8) (hd : d.debouncedState < 256) :
    ((d.changed &&& compl8 d.debouncedState)
        &&& (d.changed &&& d.debouncedState)) = 0 ∧
    ¬(d.ButtonPressed (2 ^ b) = true ∧ d.ButtonReleased (2 ^ b) = true) := by
  constructor
  · apply Nat.eq_of_testBit_eq
    intro i
    rw [Nat.testBit_and, Nat.testBit_and, Nat.testBit_and, Nat.zero_testBit]
    by_cases hi : i < 8
    · rw [testBit_compl8 _ hi]
      cases d.debouncedState.testBit i <;> simp
    · have h8 : d.debouncedState.testBit i = false := by
        apply Nat.testBit_lt_two_pow
        calc d.debouncedState < 256 := hd
        _ = 2 ^ 8 := by norm_num
        _ ≤ 2 ^ i := Nat.pow_le_pow_right (by norm_num) (by omega)
      rw [h8]
      simp
  · rw [ButtonPressed_two_pow d hb, ButtonReleased_two_pow d hb]
    rintro ⟨h1, h2⟩
    cases hdb : d.debouncedState.testBit b
    · rw [hdb] at h2
      simp at h2
    · rw [hdb] at h1
      simp at h1

theorem claim10_witness :
    (0:Nat) < 8 ∧ (init 10).debouncedState < 256 ∧
      ¬((init 10).ButtonPressed (2 ^ 0) = true
        ∧ (init 10).ButtonReleased (2 ^ 0) = true) :=
  ⟨by decide, by decide,
    (claim10_pressed_released_exclusive (init 10) 0 (by decide) (by decide)).2⟩

/-- Claim C2 counterexample: under the default configuration (pull-ups,
N = 10), feeding the asserted sample 0xFE (pin 0 at its pressed raw level 0)
from the fresh state makes `ButtonPressed` fire already on the first call,
and it is false on the 10th call — not true only on the N-th call as the
claim states. -/
theorem claim2_counterexample :
    (run true 10 (init 10) (List.replicate 1 254)).ButtonPressed 1 = true ∧
    (run true 10 (init 10) (List.replicate 10 254)).ButtonPressed 1 = false := by
  decide

/-- Claim C2 (amended): starting from the freshly constructed idle state,
feeding a sample whose normalized bit for the pin is at the pressed level
makes the debounced state for that pin asserted already on the first call
(and it stays asserted while the feed continues), and `ButtonPressed` for
that pin returns true only on that first call, false on every later call of
the feed. -/
theorem claim2_amended (pullups : Bool) (N x b : Nat) (hN : 0 < N)
    (hb : b < 8) (hx : (normalize pullups x).testBit b = false) :
    (∀ i, 1 ≤ i →
      ((run pullups N (init N) (List.replicate i x)).debouncedState).testBit b
        = false) ∧
    (run pullups N (init N) (List.replicate 1 x)).ButtonPressed (2 ^ b)
      = true ∧
    (∀ i, 2 ≤ i →
      (run pullups N (init N) (List.replicate i x)).ButtonPressed (2 ^ b)
        = false) := by
  have hlen : ∀ i : Nat,
      (run pullups N (init N) (List.replicate i x)).state.length = N := by
    intro i
    rw [run_length, init_length]
  have hidx : ∀ i : Nat,
      (run pullups N (init N) (List.replicate i x)).index < N := by
    intro i
    apply run_index_lt pullups hN
    rw [init_index]
    exact hN
  have hdeb : ∀ i, 1 ≤ i →
      ((run pullups N (init N) (List.replicate i x)).debouncedState).testBit b
        = false := by
    intro i hi
    obtain ⟨i1, rfl⟩ : ∃ i1, i = i1 + 1 := ⟨i - 1, by omega⟩
    rw [List.replicate_succ', run_append, run_singleton]
    apply ButtonProcess_assert_debBit pullups N _ x ?_ hx
    rw [hlen i1]
    exact hidx i1
  refine ⟨hdeb, ?_, ?_⟩
  · have h1 : List.replicate 1 x = [x] := rfl
    rw [h1, run_singleton, ButtonPressed_two_pow _ hb,
      ButtonProcess_changed_testBit,
      ButtonProcess_assert_debBit pullups N _ x ?_ hx]
    · rw [init_debouncedState, testBit_255 hb]
      rfl
    · rw [init_length, init_index]
      exact hN
  · intro i hi
    obtain ⟨i2, rfl⟩ : ∃ i2, i = i2 + 1 + 1 := ⟨i - 2, by omega⟩
    rw [List.replicate_succ', run_append, run_singleton,
      ButtonPressed_two_pow _ hb, ButtonProcess_changed_testBit,
      ButtonProcess_assert_debBit pullups N _ x ?_ hx]
    · rw [hdeb (i2 + 1) (by omega)]
      rfl
    · rw [hlen (i2 + 1)]
      exact hidx (i2 + 1)

theorem claim2_witness :
    (0:Nat) < 10 ∧ (0:Nat) < 8 ∧ (normalize true 254).testBit 0 = false ∧
    (run true 10 (init 10) (List.replicate 3 254)).debouncedState.testBit 0
      = false ∧
    (run true 10 (init 10) (List.replicate 1 254)).ButtonPressed (2 ^ 0)
      = true ∧
    (run true 10 (init 10) (List.replicate 3 254)).ButtonPressed (2 ^ 0)
      = false := by
  refine ⟨by decide, by decide, by decide, ?_, ?_, ?_⟩
  · exact (claim2_amended true 10 254 0 (by decide) (by decide)
      (by decide)).1 3 (by decide)
  · exact (claim2_amended true 10 254 0 (by decide) (by decide)
      (by decide)).2.1
  · exact (claim2_amended true 10 254 0 (by decide) (by decide)
      (by decide)).2.2 3 (by decide)

/-- Claim C4 counterexample: under the default configuration, the very first
call of the alternating feed (the asserted sample 0xFE for pin 0) already
flips `debouncedState` for that pin from 1 to 0, within fewer than N = 10
calls — the claim says it never flips during those calls. -/
theorem claim4_counterexample :
    (init 10).debouncedState.testBit 0 = true ∧
    (run true 10 (init 10) (altList 254 255 1)).debouncedState.testBit 0
      = false := by
  decide

/-- Claim C4 (amended): starting from the freshly constructed idle state and
feeding an alternating sequence (asserted first) for fewer than N calls, the
debounced state for the pin flips exactly once — to pressed on the first
call, forced by the instant-press behavior of the AND window — and never
flips again during those calls. -/
theorem claim4_amended (pullups : Bool) (N x y b m : Nat) (hN : 0 < N)
    (hb : b < 8) (hx : (normalize pullups x).testBit b = false)
    (_hy : (normalize pullups y).testBit b = true) (hm : m < N) :
    (init N).debouncedState.testBit b = true ∧
    (∀ t, 1 ≤ t → t ≤ m →
      ((run pullups N (init N) (altList x y t)).debouncedState).testBit b
        = false) := by
  refine ⟨by rw [init_debouncedState]; exact testBit_255 hb, ?_⟩
  intro t ht1 htm
  have hbase : (ButtonProcess pullups N (init N) x).state[0]?
      = some (normalize pullups x) := by
    have h := ButtonProcess_slot_written pullups N (init N) x
      (by rw [init_length, init_index]; exact hN)
    rwa [init_index] at h
  have htail := altList_head x y t ht1
  have hrun : run pullups N (init N) (altList x y t)
      = run pullups N (ButtonProcess pullups N (init N) x)
          ((List.range (t - 1)).map
            (fun u => if (u + 1) % 2 = 0 then x else y)) := by
    rw [htail, run_cons]
  have hidx1 : (ButtonProcess pullups N (init N) x).index = 1 % N := by
    rw [ButtonProcess_index_mod pullups (init N) x
      (by rw [init_index]; exact hN), init_index]
  have hslot : (run pullups N (ButtonProcess pullups N (init N) x)
      ((List.range (t - 1)).map
        (fun u => if (u + 1) % 2 = 0 then x else y))).state[0]?
      = some (normalize pullups x) := by
    rw [run_slot_preserved pullups _ _ 0
      (by rw [ButtonProcess_length, init_length])
      (ButtonProcess_index_lt pullups hN (init N) x) ?_]
    · exact hbase
    · intro u hu
      rw [hidx1, Nat.mod_add_mod]
      rw [List.length_map, List.length_range] at hu
      rw [Nat.mod_eq_of_lt (by omega)]
      omega
  have hne : altList x y t ≠ [] := by
    rw [htail]
    exact List.cons_ne_nil _ _
  rw [run_deb_testBit_all pullups N (init N) (altList x y t) hne b]
  have hmem : normalize pullups x
      ∈ (run pullups N (init N) (altList x y t)).state := by
    rw [hrun]
    exact List.getElem?_mem hslot
  rw [all_testBit_false_of_mem hmem hx, Bool.and_false]

theorem claim4_witness :
    (0:Nat) < 10 ∧ (0:Nat) < 8 ∧ (normalize true 254).testBit 0 = false ∧
    (normalize true 255).testBit 0 = true ∧ (3:Nat) < 10 ∧
    (init 10).debouncedState.testBit 0 = true ∧
    (run true 10 (init 10) (altList 254 255 1)).debouncedState.testBit 0
      = false ∧
    (run true 10 (init 10) (altList 254 255 2)).debouncedState.testBit 0
      = false ∧
    (run true 10 (init 10) (altList 254 255 3)).debouncedState.testBit 0
      = false := by
  refine ⟨by decide, by decide, by decide, by decide, by decide, ?_, ?_, ?_, ?_⟩
  · exact (claim4_amended true 10 254 255 0 3 (by decide) (by decide)
      (by decide) (by decide) (by decide)).1
  · exact (claim4_amended true 10 254 255 0 3 (by decide) (by decide)
      (by decide) (by decide) (by decide)).2 1 (by decide) (by decide)
  · exact (claim4_amended true 10 254 255 0 3 (by decide) (by decide)
      (by decide) (by decide) (by decide)).2 2 (by decide) (by decide)
  · exact (claim4_amended true 10 254 255 0 3 (by decide) (by decide)
      (by decide) (by decide) (by decide)).2 3 (by decide) (by decide)

/-- Claim C3 counterexample: under the default configuration, after pin 0 is
confirmed pressed by 10 consecutive asserted samples, a single call with the
pin deasserted neither flips the debounced state back nor reports a release —
the claim says both happen on that call. -/
theorem claim3_counterexample :
    (run true 10 (init 10)
      (List.replicate 10 254)).debouncedState.testBit 0 = false ∧
    (run true 10 (init 10)
      (List.replicate 10 254 ++ [255])).debouncedState.testBit 0 = false ∧
    (run true 10 (init 10)
      (List.replicate 10 254 ++ [255])).ButtonReleased 1 = false := by
  decide

/-- Claim C3 (amended): once a pin is confirmed pressed (at least one
asserted sample from the fresh state), deasserted samples flip the debounced
state back only when every slot of the history window has been overwritten:
for fewer than N consecutive deasserted calls the pin stays pressed and
`ButtonReleased` stays false, the flip to not-pressed happens exactly on the
N-th consecutive deasserted call and `ButtonReleased` is true exactly on that
call, and afterwards the pin stays not-pressed with `ButtonReleased` false
again. -/
theorem claim3_amended (pullups : Bool) (N x y b k : Nat) (hN : 0 < N)
    (hb : b < 8) (hx : (normalize pullups x).testBit b = false)
    (hy : (normalize pullups y).testBit b = true) (hk : 1 ≤ k) :
    (∀ j, j < N →
      ((run pullups N (run pullups N (init N) (List.replicate k x))
          (List.replicate j y)).debouncedState).testBit b = false ∧
        (run pullups N (run pullups N (init N) (List.replicate k x))
          (List.replicate j y)).ButtonReleased (2 ^ b) = false) ∧
    (((run pullups N (run pullups N (init N) (List.replicate k x))
        (List.replicate N y)).debouncedState).testBit b = true ∧
      (run pullups N (run pullups N (init N) (List.replicate k x))
        (List.replicate N y)).ButtonReleased (2 ^ b) = true) ∧
    (∀ j, N < j →
      ((run pullups N (run pullups N (init N) (List.replicate k x))
          (List.replicate j y)).debouncedState).testBit b = true ∧
        (run pullups N (run pullups N (init N) (List.replicate k x))
          (List.replicate j y)).ButtonReleased (2 ^ b) = false) := by
  have hinitIdx : (init N).index < N := by
    rw [init_index]
    exact hN
  set B := run pullups N (init N) (List.replicate k x) with hB
  have hBLen : B.state.length = N := by
    rw [hB, run_length, init_length]
  have hBIdx : B.index = k % N := by
    rw [hB, run_index_mod pullups hN _ _ hinitIdx, init_index,
      List.length_replicate, Nat.zero_add]
  have hBIdxLt : B.index < N := by
    rw [hBIdx]
    exact Nat.mod_lt _ hN
  have hmid : List.replicate k x = List.replicate (k - 1) x ++ [x] := by
    have he : k = (k - 1) + 1 := by omega
    conv_lhs => rw [he]
    rw [List.replicate_succ']
  have hmidIdx : (run pullups N (init N) (List.replicate (k - 1) x)).index
      = (k - 1) % N := by
    rw [run_index_mod pullups hN _ _ hinitIdx, init_index,
      List.length_replicate, Nat.zero_add]
  have hmidLen :
      (run pullups N (init N) (List.replicate (k - 1) x)).state.length = N := by
    rw [run_length, init_length]
  have hmidOk : (run pullups N (init N) (List.replicate (k - 1) x)).index
      < (run pullups N (init N) (List.replicate (k - 1) x)).state.length := by
    rw [hmidLen, hmidIdx]
    exact Nat.mod_lt _ hN
  have hBEq : B = ButtonProcess pullups N
      (run pullups N (init N) (List.replicate (k - 1) x)) x := by
    rw [hB, hmid, run_append, run_singleton]
  have hslotB : B.state[(k - 1) % N]? = some (normalize pullups x) := by
    rw [hBEq]
    have h := ButtonProcess_slot_written pullups N
      (run pullups N (init N) (List.replicate (k - 1) x)) x hmidOk
    rwa [hmidIdx] at h
  have hdebLow : ∀ j, j < N →
      ((run pullups N B (List.replicate j y)).debouncedState).testBit b
        = false := by
    intro j hj
    rcases Nat.eq_zero_or_pos j with h0 | hjpos
    · subst h0
      rw [List.replicate_zero, run_nil, hBEq]
      exact ButtonProcess_assert_debBit pullups N _ x hmidOk hx
    · rw [run_deb_testBit_all pullups N _ _
        (replicate_ne_nil_of_pos y hjpos) b]
      have hslot : (run pullups N B (List.replicate j y)).state[(k - 1) % N]?
          = some (normalize pullups x) := by
        rw [run_slot_preserved pullups _ _ _ hBLen hBIdxLt ?_]
        · exact hslotB
        · intro t ht
          rw [List.length_replicate] at ht
          rw [hBIdx, Nat.mod_add_mod]
          intro hcon
          have he : k + t = (k - 1) + (t + 1) := by omega
          rw [he] at hcon
          have h3 : ((k - 1) + (t + 1)) % N = ((k - 1) + 0) % N := by
            rw [Nat.add_zero]
            exact hcon
          have h2 : (t + 1) % N = 0 % N :=
            Nat.ModEq.add_left_cancel' (k - 1) h3
          rw [Nat.zero_mod, Nat.mod_eq_of_lt (by omega)] at h2
          omega
      rw [all_testBit_false_of_mem (List.getElem?_mem hslot) hx,
        Bool.and_false]
  have hrelLow : ∀ j, j < N →
      (run pullups N B (List.replicate j y)).ButtonReleased (2 ^ b)
        = false := by
    intro j hj
    rw [ButtonReleased_two_pow _ hb, hdebLow j hj, Bool.and_false]
  have hallN : (run pullups N B (List.replicate N y)).state.all
      (fun v => v.testBit b) = true := by
    rw [List.all_eq_true]
    intro v hv
    rcases List.mem_iff_getElem?.mp hv with ⟨s, hs⟩
    have hsN : s < N := by
      rcases List.getElem?_eq_some.mp hs with ⟨hlt, _⟩
      rwa [run_length, hBLen] at hlt
    obtain ⟨w, hw, hwb⟩ := run_cover pullups (List.replicate N y) B s
      hBLen hBIdxLt hsN
      (fun z hz => by rw [List.eq_of_mem_replicate hz]; exact hy)
      (Or.inr (by
        obtain ⟨t, htN, hteq⟩ := mod_coverage hN B.index hsN
        exact ⟨t, by rw [List.length_replicate]; exact htN, hteq⟩))
    rw [hs] at hw
    injection hw with hvw
    rw [hvw]
    exact hwb
  have hdebN : ((run pullups N B (List.replicate N y)).debouncedState).testBit b
      = true := by
    rw [run_deb_testBit_all pullups N _ _ (replicate_ne_nil_of_pos y hN) b,
      testBit_255 hb, hallN]
    rfl
  have hSNeq : run pullups N B (List.replicate N y)
      = ButtonProcess pullups N
          (run pullups N B (List.replicate (N - 1) y)) y := by
    have he : N = (N - 1) + 1 := by omega
    have h1 : List.replicate N y = List.replicate (N - 1) y ++ [y] := by
      conv_lhs => rw [he]
      rw [List.replicate_succ']
    rw [h1, run_append, run_singleton]
  have hchgN : (run pullups N B (List.replicate N y)).changed.testBit b
      = true := by
    rw [hSNeq, ButtonProcess_changed_testBit, ← hSNeq, hdebN,
      hdebLow (N - 1) (by omega)]
    rfl
  have hrelN : (run pullups N B (List.replicate N y)).ButtonReleased (2 ^ b)
      = true := by
    rw [ButtonReleased_two_pow _ hb, hchgN, hdebN]
    rfl
  have hallAfter : ∀ r : Nat, (run pullups N B
      (List.replicate (N + r) y)).state.all (fun v => v.testBit b) = true := by
    intro r
    rw [List.replicate_add, run_append]
    exact run_keep_all pullups N _ _ hallN
      (fun z hz => by rw [List.eq_of_mem_replicate hz]; exact hy)
  have hdebHigh : ∀ j, N ≤ j →
      ((run pullups N B (List.replicate j y)).debouncedState).testBit b
        = true := by
    intro j hj
    obtain ⟨r, rfl⟩ : ∃ r, j = N + r := ⟨j - N, by omega⟩
    rw [run_deb_testBit_all pullups N _ _
      (replicate_ne_nil_of_pos y (by omega)) b, testBit_255 hb, hallAfter r]
    rfl
  have hrelHigh : ∀ j, N < j →
      (run pullups N B (List.replicate j y)).ButtonReleased (2 ^ b)
        = false := by
    intro j hj
    have hSjeq : run pullups N B (List.replicate j y)
        = ButtonProcess pullups N
            (run pullups N B (List.replicate (j - 1) y)) y := by
      have he : j = (j - 1) + 1 := by omega
      have h1 : List.replicate j y = List.replicate (j - 1) y ++ [y] := by
        conv_lhs => rw [he]
        rw [List.replicate_succ']
      rw [h1, run_append, run_singleton]
    have hchg : (run pullups N B (List.replicate j y)).changed.testBit b
        = false := by
      rw [hSjeq, ButtonProcess_changed_testBit, ← hSjeq,
        hdebHigh j (by omega), hdebHigh (j - 1) (by omega)]
      rfl
    rw [ButtonReleased_two_pow _ hb, hchg, Bool.false_and]
  exact ⟨fun j hj => ⟨hdebLow j hj, hrelLow j hj⟩, ⟨hdebN, hrelN⟩,
    fun j hj => ⟨hdebHigh j (by omega), hrelHigh j hj⟩⟩

theorem claim3_witness :
    (0:Nat) < 3 ∧ (0:Nat) < 8 ∧ (normalize true 254).testBit 0 = false ∧
    (normalize true 255).testBit 0 = true ∧ (1:Nat) ≤ 2 ∧
    ((run true 3 (run true 3 (init 3) (List.replicate 2 254))
        (List.replicate 1 255)).debouncedState).testBit 0 = false ∧
    (run true 3 (run true 3 (init 3) (List.replicate 2 254))
        (List.replicate 1 255)).ButtonReleased (2 ^ 0) = false ∧
    ((run true 3 (run true 3 (init 3) (List.replicate 2 254))
        (List.replicate 3 255)).debouncedState).testBit 0 = true ∧
    (run true 3 (run true 3 (init 3) (List.replicate 2 254))
        (List.replicate 3 255)).ButtonReleased (2 ^ 0) = true ∧
    (run true 3 (run true 3 (init 3) (List.replicate 2 254))
        (List.replicate 4 255)).ButtonReleased (2 ^ 0) = false := by
  refine ⟨by decide, by decide, by decide, by decide, by decide,
    ?_, ?_, ?_, ?_, ?_⟩
  · exact ((claim3_amended true 3 254 255 0 2 (by decide) (by decide)
      (by decide) (by decide) (by decide)).1 1 (by decide)).1
  · exact ((claim3_amended true 3 254 255 0 2 (by decide) (by decide)
      (by decide) (by decide) (by decide)).1 1 (by decide)).2
  · exact (claim3_amended true 3 254 255 0 2 (by decide) (by decide)
      (by decide) (by decide) (by decide)).2.1.1
  · exact (claim3_amended true 3 254 255 0 2 (by decide) (by decide)
      (by decide) (by decide) (by decide)).2.1.2
  · exact ((claim3_amended true 3 254 255 0 2 (by decide) (by decide)
      (by decide) (by decide) (by decide)).2.2 4 (by decide)).2

/-- Bit b of a normalized sample is a function of bit b of the raw sample
alone. -/
theorem testBit_normalize_congr (p : Bool) {b : Nat} (hb : b < 8)
    {u v : Nat} (huv : u.testBit b = v.testBit b) :
    (normalize p u).testBit b = (normalize p v).testBit b := by
  cases p
  · show (compl8 (u % 256)).testBit b = (compl8 (v % 256)).testBit b
    rw [testBit_compl8 _ hb, testBit_compl8 _ hb, testBit_mod256 _ hb,
      testBit_mod256 _ hb, huv]
  · show (u % 256).testBit b = (v % 256).testBit b
    rw [testBit_mod256 _ hb, testBit_mod256 _ hb, huv]

/-- The whole per-call update is bitwise: the bit-b slice of the state after
one call depends only on the bit-b slices of the previous state and of the
sample. -/
theorem ButtonProcess_bit_agree (p : Bool) (N : Nat) {b : Nat} (hb : b < 8)
    (d e : Debouncer) (u v : Nat) (huv : u.testBit b = v.testBit b)
    (hst : d.state.map (fun w => w.testBit b)
      = e.state.map (fun w => w.testBit b))
    (hix : d.index = e.index)
    (hdb : d.debouncedState.testBit b = e.debouncedState.testBit b) :
    (ButtonProcess p N d u).state.map (fun w => w.testBit b)
        = (ButtonProcess p N e v).state.map (fun w => w.testBit b) ∧
      (ButtonProcess p N d u).index = (ButtonProcess p N e v).index ∧
      (ButtonProcess p N d u).debouncedState.testBit b
        = (ButtonProcess p N e v).debouncedState.testBit b ∧
      (ButtonProcess p N d u).changed.testBit b
        = (ButtonProcess p N e v).changed.testBit b := by
  have hnorm := testBit_normalize_congr p hb huv
  have hstate : (ButtonProcess p N d u).state.map (fun w => w.testBit b)
      = (ButtonProcess p N e v).state.map (fun w => w.testBit b) := by
    rw [ButtonProcess_state, ButtonProcess_state, List.map_set,
      List.map_set, hst, hix, hnorm]
  have hall : (ButtonProcess p N d u).state.all (fun w => w.testBit b)
      = (ButtonProcess p N e v).state.all (fun w => w.testBit b) := by
    have h1 : ∀ l : List Nat, l.all (fun w => w.testBit b)
        = (l.map (fun w => w.testBit b)).all id := by
      intro l
      induction l with
      | nil => rfl
      | cons w t ih =>
          rw [List.all_cons, List.map_cons, List.all_cons, ih]
          rfl
    rw [h1, h1, hstate]
  have hdeb : (ButtonProcess p N d u).debouncedState.testBit b
      = (ButtonProcess p N e v).debouncedState.testBit b := by
    rw [ButtonProcess_deb_testBit, ButtonProcess_deb_testBit, hall]
  refine ⟨hstate, ?_, hdeb, ?_⟩
  · rw [ButtonProcess_index_def, ButtonProcess_index_def, hix]
  · rw [ButtonProcess_changed_testBit, ButtonProcess_changed_testBit,
      hdeb, hdb]

/-- Bit-slice bisimulation along two runs whose samples agree at bit b. -/
theorem run_bit_agree (p : Bool) (N : Nat) {b : Nat} (hb : b < 8) :
    ∀ {xs ys : List Nat},
      List.Forall₂ (fun u v => u.testBit b = v.testBit b) xs ys →
      ∀ (d e : Debouncer),
        d.state.map (fun w => w.testBit b)
          = e.state.map (fun w => w.testBit b) →
        d.index = e.index →
        d.debouncedState.testBit b = e.debouncedState.testBit b →
        d.changed.testBit b = e.changed.testBit b →
        ((run p N d xs).state.map (fun w => w.testBit b)
            = (run p N e ys).state.map (fun w => w.testBit b) ∧
          (run p N d xs).index = (run p N e ys).index ∧
          (run p N d xs).debouncedState.testBit b
            = (run p N e ys).debouncedState.testBit b ∧
          (run p N d xs).changed.testBit b
            = (run p N e ys).changed.testBit b) := by
  intro xs ys hf
  induction hf with
  | nil =>
      intro d e h1 h2 h3 h4
      exact ⟨h1, h2, h3, h4⟩
  | cons huv _ ih =>
      intro d e h1 h2 h3 h4
      rw [run_cons, run_cons]
      obtain ⟨g1, g2, g3, g4⟩ :=
        ButtonProcess_bit_agree p N hb d e _ _ huv h1 h2 h3
      exact ih _ _ g1 g2 g3 g4

/-- Claim C7: for distinct pins A and B and two equally long input sequences
that agree on bit B (and may differ arbitrarily elsewhere, in particular on
bit A), processing either sequence from the initial state yields the same
debounced bit and the same `ButtonPressed` and `ButtonReleased` answers for
pin B after every step. -/
theorem claim7_pin_independence (pullups : Bool) (N A B : Nat)
    (_hAB : A ≠ B) (hB : B < 8) (xs ys : List Nat)
    (hagree : List.Forall₂ (fun u v => u.testBit B = v.testBit B) xs ys) :
    ∀ n : Nat,
      ((run pullups N (init N) (xs.take n)).debouncedState).testBit B
        = ((run pullups N (init N) (ys.take n)).debouncedState).testBit B ∧
      (run pullups N (init N) (xs.take n)).ButtonPressed (2 ^ B)
        = (run pullups N (init N) (ys.take n)).ButtonPressed (2 ^ B) ∧
      (run pullups N (init N) (xs.take n)).ButtonReleased (2 ^ B)
        = (run pullups N (init N) (ys.take n)).ButtonReleased (2 ^ B) := by
  intro n
  have htake := List.forall₂_take n hagree
  obtain ⟨g1, g2, g3, g4⟩ := run_bit_agree pullups N hB htake
    (init N) (init N) rfl rfl rfl rfl
  refine ⟨g3, ?_, ?_⟩
  · rw [ButtonPressed_two_pow _ hB, ButtonPressed_two_pow _ hB, g3, g4]
  · rw [ButtonReleased_two_pow _ hB, ButtonReleased_two_pow _ hB, g3, g4]

theorem claim7_witness :
    (1 : Nat) ≠ 0 ∧ (0:Nat) < 8 ∧
    ((run true 10 (init 10) ([2, 3].take 2)).debouncedState).testBit 0
      = ((run true 10 (init 10) ([0, 1].take 2)).debouncedState).testBit 0 ∧
    (run true 10 (init 10) ([2, 3].take 2)).ButtonPressed (2 ^ 0)
      = (run true 10 (init 10) ([0, 1].take 2)).ButtonPressed (2 ^ 0) ∧
    (run true 10 (init 10) ([2, 3].take 2)).ButtonReleased (2 ^ 0)
      = (run true 10 (init 10) ([0, 1].take 2)).ButtonReleased (2 ^ 0) := by
  refine ⟨by decide, by decide, ?_⟩
  exact claim7_pin_independence true 10 1 0 (by decide) (by decide)
    [2, 3] [0, 1]
    (List.Forall₂.cons (by decide)
      (List.Forall₂.cons (by decide) List.Forall₂.nil)) 2

end Debouncer

end ButtonDebounce
